import Mathlib

/-!
Shallow embedding of the competitor-research pipeline of the patent-detector
repository (src/lib/competitor-research.ts and src/lib/uspto-search.ts),
together with proofs settling the frozen claims about it.

Strings from the TypeScript side are modelled as `List Char` (with `String`
wrappers where convenient); JavaScript regular-expression operations are
translated into explicit character-level scanners that mirror the behaviour
of the concrete regexes appearing in the source.  JSON values are modelled by
the inductive type `JVal`; `JSON.parse` is modelled by `jsonParse`, a
recursive-descent parser returning `none` where `JSON.parse` would throw.
-/

set_option maxRecDepth 20000

/-! ## Basic character and string utilities -/

/-- JavaScript whitespace characters relevant to the regex class `\s`
(restricted to the ASCII range actually occurring in the data). -/
def isWs (c : Char) : Bool :=
  c = ' ' || c = '\t' || c = '\n' || c = '\r' || c = '\x0b' || c = '\x0c'

/-- Lower-case every character (models `String.prototype.toLowerCase` on the
ASCII strings handled by the pipeline). -/
def lcList (l : List Char) : List Char := l.map Char.toLower

/-- Drop whitespace from both ends (models `String.prototype.trim`). -/
def trimWs (l : List Char) : List Char :=
  ((l.dropWhile isWs).reverse.dropWhile isWs).reverse

/-- Worker for `collapseWs`: the flag records whether the previous character
was part of a whitespace run that has already produced its single space. -/
def collapseWsGo : Bool → List Char → List Char
  | _, [] => []
  | prevWs, c :: t =>
    if isWs c then
      if prevWs then collapseWsGo true t else ' ' :: collapseWsGo true t
    else c :: collapseWsGo false t

/-- Replace every whitespace run by a single space: the JavaScript idiom
`s.replace(/\s+/g, ' ')` used throughout the XML cleaners. -/
def collapseWs (l : List Char) : List Char := collapseWsGo false l

/-- Case-insensitive prefix test; `pat` is supplied already lower-cased. -/
def isPrefixCI (pat l : List Char) : Bool := lcList (l.take pat.length) == pat

/-- Substring containment (models `String.prototype.includes`). -/
def containsSub : List Char → List Char → Bool
  | [], needle => needle.isEmpty
  | hay@(_ :: t), needle => needle.isPrefixOf hay || containsSub t needle

/-- Find the first (case-sensitive) occurrence of `pat`, returning the text
before it and the text after it. -/
def findSub (pat : List Char) : List Char → Option (List Char × List Char)
  | [] => if pat.isEmpty then some ([], []) else none
  | l@(c :: t) =>
    if pat.isPrefixOf l then some ([], l.drop pat.length)
    else
      match findSub pat t with
      | some (b, a) => some (c :: b, a)
      | none => none

/-- Find the first case-insensitive occurrence of `pat` (supplied
lower-cased), returning the text before it and the text after it. -/
def findCISub (pat : List Char) : List Char → Option (List Char × List Char)
  | [] => if pat.isEmpty then some ([], []) else none
  | l@(c :: t) =>
    if isPrefixCI pat l then some ([], l.drop pat.length)
    else
      match findCISub pat t with
      | some (b, a) => some (c :: b, a)
      | none => none

/-- Worker for `splitOnChar`; the accumulator holds the current segment
reversed. -/
def splitOnCharGo (sep : Char) : List Char → List Char → List (List Char)
  | cur, [] => [cur.reverse]
  | cur, c :: t =>
    if c = sep then cur.reverse :: splitOnCharGo sep [] t
    else splitOnCharGo sep (c :: cur) t

/-- Split on a separator character (models `String.prototype.split` with a
single-character separator). -/
def splitOnChar (sep : Char) (l : List Char) : List (List Char) :=
  splitOnCharGo sep [] l

/-- Worker for `wordsOf`. -/
def wordsGo : List Char → List Char → List (List Char)
  | cur, [] => if cur.isEmpty then [] else [cur.reverse]
  | cur, c :: t =>
    if isWs c then
      if cur.isEmpty then wordsGo [] t else cur.reverse :: wordsGo [] t
    else wordsGo (c :: cur) t

/-- Split into maximal non-whitespace words; empty artifacts of
`split(/\s+/)` are irrelevant downstream because every consumer filters by a
minimum length. -/
def wordsOf (l : List Char) : List (List Char) := wordsGo [] l

/-- Numeric value of a digit string (models `parseInt` on an all-digit
match of `\d+`). -/
def natOfDigits (ds : List Char) : Nat :=
  ds.foldl (fun a c => a * 10 + (c.toNat - 48)) 0

/-- Keep only digits (models `s.replace(/\D/g, '')`). -/
def digitsOnly (s : String) : String :=
  String.mk (s.toList.filter Char.isDigit)

/-- JavaScript `a || b` on strings: the empty string is falsy. -/
def jsOr (a b : String) : String := if a = "" then b else a

/-! ## JSON values and a model of JSON.parse -/

/-- JSON values as produced by `JSON.parse`.  Numbers are restricted to the
integers, which is what the analysis pipeline manipulates. -/
inductive JVal where
  | null
  | bool (b : Bool)
  | num (n : Int)
  | str (s : String)
  | arr (elems : List JVal)
  | obj (fields : List (String × JVal))

/-- Look up a key in a JSON object (`undefined` is modelled as `none`). -/
def jlookup : JVal → String → Option JVal
  | .obj fs, k => (fs.find? (fun f => f.1 == k)).map (·.2)
  | _, _ => none

/-- JavaScript truthiness of a JSON value. -/
def jTruthy : JVal → Bool
  | .null => false
  | .bool b => b
  | .num n => n != 0
  | .str s => s ≠ ""
  | .arr _ => true
  | .obj _ => true

/-- Skip leading whitespace. -/
def skipWs (l : List Char) : List Char := l.dropWhile isWs

/-- Parse the body of a JSON string literal after the opening quote,
handling the simple escapes that can occur in the pipeline's data. -/
def parseStrGo : List Char → List Char → Option (String × List Char)
  | _, [] => none
  | acc, '"' :: t => some (String.mk acc.reverse, t)
  | _, ['\\'] => none
  | acc, '\\' :: e :: t2 =>
    parseStrGo ((if e = 'n' then '\n' else if e = 't' then '\t'
      else if e = 'r' then '\r' else e) :: acc) t2
  | acc, c :: t => parseStrGo (c :: acc) t

/-- Parse an integer literal. -/
def parseNumL (l : List Char) : Option (JVal × List Char) :=
  match l with
  | '-' :: t =>
    let ds := t.takeWhile Char.isDigit
    if ds.isEmpty then none
    else some (JVal.num (-(Int.ofNat (natOfDigits ds))), t.drop ds.length)
  | _ =>
    let ds := l.takeWhile Char.isDigit
    if ds.isEmpty then none
    else some (JVal.num (Int.ofNat (natOfDigits ds)), l.drop ds.length)

mutual

/-- Recursive-descent JSON value parser; the fuel bounds nesting depth. -/
def parseVal : Nat → List Char → Option (JVal × List Char)
  | 0, _ => none
  | fuel + 1, l =>
    match skipWs l with
    | [] => none
    | '\x7b' :: t => parseObjRest fuel (skipWs t) []
    | '[' :: t => parseArrRest fuel (skipWs t) []
    | '"' :: t => (parseStrGo [] t).map (fun p => (JVal.str p.1, p.2))
    | 't' :: t =>
      if ['r', 'u', 'e'].isPrefixOf t then some (JVal.bool true, t.drop 3) else none
    | 'f' :: t =>
      if ['a', 'l', 's', 'e'].isPrefixOf t then some (JVal.bool false, t.drop 4) else none
    | 'n' :: t =>
      if ['u', 'l', 'l'].isPrefixOf t then some (JVal.null, t.drop 3) else none
    | l2 => parseNumL l2

/-- Parse the fields of an object after the opening brace. -/
def parseObjRest : Nat → List Char → List (String × JVal) → Option (JVal × List Char)
  | 0, _, _ => none
  | fuel + 1, l, acc =>
    match l with
    | '\x7d' :: t => some (JVal.obj acc.reverse, t)
    | '"' :: t =>
      match parseStrGo [] t with
      | none => none
      | some (k, r1) =>
        match skipWs r1 with
        | ':' :: r2 =>
          match parseVal fuel r2 with
          | none => none
          | some (v, r3) =>
            match skipWs r3 with
            | ',' :: r4 => parseObjRest fuel (skipWs r4) ((k, v) :: acc)
            | '\x7d' :: r4 => some (JVal.obj ((k, v) :: acc).reverse, r4)
            | _ => none
        | _ => none
    | _ => none

/-- Parse the elements of an array after the opening bracket. -/
def parseArrRest : Nat → List Char → List JVal → Option (JVal × List Char)
  | 0, _, _ => none
  | fuel + 1, l, acc =>
    match l with
    | ']' :: t => some (JVal.arr acc.reverse, t)
    | _ =>
      match parseVal fuel l with
      | none => none
      | some (v, r1) =>
        match skipWs r1 with
        | ',' :: r2 => parseArrRest fuel (skipWs r2) (v :: acc)
        | ']' :: r2 => some (JVal.arr (v :: acc).reverse, r2)
        | _ => none

end

/-- Model of `JSON.parse`: `none` stands for a thrown `SyntaxError`.  A parse
succeeds only when nothing but whitespace remains after the value. -/
def jsonParse (l : List Char) : Option JVal :=
  match parseVal (l.length + 1) l with
  | some (v, rest) => if (skipWs rest).isEmpty then some v else none
  | none => none

/-! ## parseJsonResponse (src/lib/competitor-research.ts, lines 92-96)

The source is

  const jsonMatch = text.match(a) || text.match(b);
  const jsonStr = jsonMatch ? jsonMatch[1].trim() : text.trim();
  return JSON.parse(jsonStr);

where the first regex is a fenced code block labelled json with a lazy body,
and the second is a greedy brace pattern whose match runs from the first
opening brace of the text to the last closing brace of the text. -/

/-- Stage 1 of `parseJsonResponse`: the capture group of the regex matching a
fenced block that starts with three backticks and the word json, followed by
optional whitespace, with a lazy body ending at the next three backticks. -/
def fencedJsonExtract (text : List Char) : Option (List Char) :=
  match findSub "```json".toList text with
  | none => none
  | some (_, rest) =>
    match findSub "```".toList (skipWs rest) with
    | none => none
    | some (body, _) => some body

/-- Index of the last occurrence of a character. -/
def lastIdxOf (c : Char) (l : List Char) : Option Nat :=
  (l.reverse.findIdx? (· = c)).map (fun k => l.length - 1 - k)

/-- Stage 2 of `parseJsonResponse`: the capture of the greedy brace regex.
Because the body pattern is greedy, the match runs from the first opening
brace to the last closing brace of the entire text, provided the close comes
after the open. -/
def braceSpanExtract (l : List Char) : Option (List Char) :=
  match l.findIdx? (· = '\x7b'), lastIdxOf '\x7d' l with
  | some i, some j => if i < j then some ((l.drop i).take (j - i + 1)) else none
  | _, _ => none

/-- Model of `parseJsonResponse`: stage 1, then stage 2, then the raw text,
each trimmed and handed to `JSON.parse`.  `none` models a thrown exception. -/
def parseJsonResponse (text : List Char) : Option JVal :=
  let jsonStr :=
    match fencedJsonExtract text with
    | some s => trimWs s
    | none =>
      match braceSpanExtract text with
      | some s => trimWs s
      | none => trimWs text
  jsonParse jsonStr

/-- Worker for `specFirstTopLevelSpan`, tracking brace depth once inside the
first span. -/
def specSpanGo : Nat → List Char → List Char → Option (List Char)
  | _, _, [] => none
  | 0, acc, c :: t => if c = '\x7b' then specSpanGo 1 [c] t else specSpanGo 0 acc t
  | depth + 1, acc, c :: t =>
    if c = '\x7d' then
      if depth = 0 then some ((c :: acc).reverse) else specSpanGo depth (c :: acc) t
    else if c = '\x7b' then specSpanGo (depth + 2) (c :: acc) t
    else specSpanGo (depth + 1) (c :: acc) t

/-- Modelled from the spec: the specification describes stage 2 as taking
"the first top-level brace-delimited span in the raw text"; this function
computes that span by matching braces from the first opening brace.  It is
used only to compare the specified behaviour with the implemented one. -/
def specFirstTopLevelSpan (l : List Char) : Option (List Char) := specSpanGo 0 [] l

/-! ## callClaude (src/lib/competitor-research.ts, lines 42-90)

The HTTP layer is mocked by a function from the attempt index to the
response observed at that attempt.  The model returns the TypeScript result
together with the number of fetch attempts made and the total milliseconds
slept in the rate-limit branch. -/

/-- A mocked HTTP response for one fetch of the Claude API.  `retryAfter` is
the parsed value of the retry-after header when present; `content` holds the
response content blocks as pairs of block type and text. -/
structure ApiResponse where
  ok : Bool
  status : Nat
  retryAfter : Option Nat
  content : List (String × String)
  body : String

/-- Result of `callClaude`: either the joined text or a thrown error. -/
inductive ClaudeResult where
  | success (text : String)
  | apiError (msg : String)
deriving DecidableEq

/-- Join the text blocks of a successful response, mirroring
`data.content.filter(type text).map(text).join(newline)`. -/
def joinTextBlocks (content : List (String × String)) : String :=
  String.intercalate "\n" ((content.filter (fun b => b.1 == "text")).map (·.2))

/-- The maxRetries constant of `callClaude`. -/
def maxRetries : Nat := 4

/-- Milliseconds waited after a 429 at the given attempt index: the parsed
retry-after header in seconds when present, otherwise the escalating fixed
schedule capped at 120000. -/
def waitMsFor (attempt : Nat) (retryAfter : Option Nat) : Nat :=
  match retryAfter with
  | some s => s * 1000
  | none => min (30000 + attempt * 30000) 120000

/-- The retry loop of `callClaude`.  The fuel counts loop iterations still
permitted (the for-loop runs attempts 0 through maxRetries); exhausting it
corresponds to the dead throw after the loop. -/
def callClaudeLoop (resps : Nat → ApiResponse) : Nat → Nat → ClaudeResult × Nat × Nat
  | 0, _ => (.apiError "Max retries exceeded for Claude API", 0, 0)
  | fuel + 1, attempt =>
    let r := resps attempt
    if r.ok then (.success (joinTextBlocks r.content), 1, 0)
    else if r.status = 429 ∧ attempt < maxRetries then
      let w := waitMsFor attempt r.retryAfter
      let rec2 := callClaudeLoop resps fuel (attempt + 1)
      (rec2.1, rec2.2.1 + 1, rec2.2.2 + w)
    else (.apiError ("Claude API error " ++ toString r.status ++ ": " ++ r.body), 1, 0)

/-- Model of `callClaude` over a mocked response sequence: the result, the
number of fetch attempts made, and the total wait in milliseconds. -/
def callClaude (resps : Nat → ApiResponse) : ClaudeResult × Nat × Nat :=
  callClaudeLoop resps (maxRetries + 1) 0

/-! ## Regex-based XML scraping (src/lib/uspto-search.ts, lines 549-617)

The extractors are ordered pattern matching with the concrete regexes of the
source; each regex is translated into a character-level scanner with the
same matching behaviour (case-insensitive tag names, greedy tag interiors
excluding the closing angle bracket, lazy bodies ending at the first literal
closing tag). -/

/-- Worker for `stripTags`.  The first argument is `some buf` (reversed
buffer) while scanning a potential tag opened by an angle bracket, `none`
otherwise.  Mirrors `s.replace(tagRegex, ' ')` where the tag regex is an
opening angle bracket, one or more characters that are not a closing angle
bracket, then a closing angle bracket. -/
def stripTagsGo : Option (List Char) → List Char → List Char
  | none, [] => []
  | some buf, [] => '<' :: buf.reverse
  | none, c :: t => if c = '<' then stripTagsGo (some []) t else c :: stripTagsGo none t
  | some buf, c :: t =>
    if c = '>' then
      if buf.isEmpty then '<' :: '>' :: stripTagsGo none t
      else ' ' :: stripTagsGo none t
    else stripTagsGo (some (c :: buf)) t

/-- Replace every XML tag by a single space. -/
def stripTags (l : List Char) : List Char := stripTagsGo none l

/-- The cleaning idiom applied to every extracted XML fragment: strip tags,
collapse whitespace, trim. -/
def cleanText (l : List Char) : List Char := trimWs (collapseWs (stripTags l))

/-- Find the first case-insensitive tag block: an occurrence of `openPat`
(such as an opening angle bracket and a tag name) followed by any characters
other than a closing angle bracket, then a closing angle bracket, then a
lazy body ending at the first occurrence of `closePat`.  When an opening tag
has no matching close, scanning resumes one character further on, as regex
backtracking does. -/
def findTagBlockCI (openPat closePat : List Char) : List Char → Option (List Char)
  | [] => none
  | l@(_ :: t) =>
    if isPrefixCI openPat l then
      let rest := l.drop openPat.length
      let tag := rest.takeWhile (· ≠ '>')
      if tag.length < rest.length then
        match findCISub closePat (rest.drop (tag.length + 1)) with
        | some (body, _) => some body
        | none => findTagBlockCI openPat closePat t
      else findTagBlockCI openPat closePat t
    else findTagBlockCI openPat closePat t

/-- The three abstract tag vocabularies tried in order by
`extractAbstractFromXml`. -/
def abstractPatterns : List (List Char × List Char) :=
  [("<abstract".toList, "</abstract>".toList),
   ("<us-abstract".toList, "</us-abstract>".toList),
   ("<subdoc-abstract".toList, "</subdoc-abstract>".toList)]

/-- Pattern loop of `extractAbstractFromXml`: first match whose cleaned text
exceeds ten characters wins; shorter matches fall through to the next
pattern. -/
def extractAbstractLoop (xml : List Char) : List (List Char × List Char) → List Char
  | [] => []
  | (o, c) :: rest =>
    match findTagBlockCI o c xml with
    | some body =>
      let text := cleanText body
      if text.length > 10 then text else extractAbstractLoop xml rest
    | none => extractAbstractLoop xml rest

/-- Model of `extractAbstractFromXml`. -/
def extractAbstractFromXml (xml : List Char) : List Char :=
  extractAbstractLoop xml abstractPatterns

/-- Search an opening tag's interior for the claim-id attribute: the literal
text `id="CLM-` (case-insensitively) followed by one or more digits and a
closing quote; returns the digits. -/
def claimIdDigits : List Char → Option (List Char)
  | [] => none
  | l@(_ :: t) =>
    if isPrefixCI "id=\"clm-".toList l then
      let rest := l.drop 8
      let ds := rest.takeWhile Char.isDigit
      if ds.isEmpty then claimIdDigits t
      else
        match rest.drop ds.length with
        | '"' :: _ => some ds
        | _ => claimIdDigits t
    else claimIdDigits t

/-- Try to match, at the head of the input, one claim element of the primary
claim regex: an opening claim tag carrying a claim-id attribute, a lazy body,
and the literal closing claim tag.  Returns the id digits, the raw body and
the remainder after the close. -/
def matchClaimElemAt (l : List Char) : Option (List Char × List Char × List Char) :=
  if isPrefixCI "<claim".toList l then
    let rest := l.drop 6
    let tag := rest.takeWhile (· ≠ '>')
    if tag.length < rest.length then
      match claimIdDigits tag with
      | some ds =>
        match findCISub "</claim>".toList (rest.drop (tag.length + 1)) with
        | some (body, after) => some (ds, body, after)
        | none => none
      | none => none
    else none
  else none

/-- Global scan of the primary claim regex, collecting id digits and raw
bodies of all non-overlapping matches left to right. -/
def findClaimMatchesGo : Nat → List Char → List (List Char × List Char)
  | 0, _ => []
  | _, [] => []
  | fuel + 1, l@(_ :: t) =>
    match matchClaimElemAt l with
    | some (ds, body, after) => (ds, body) :: findClaimMatchesGo fuel after
    | none => findClaimMatchesGo fuel t

/-- All matches of the primary claim regex in the document. -/
def findClaimMatches (xml : List Char) : List (List Char × List Char) :=
  findClaimMatchesGo (xml.length + 1) xml

/-- Test for the dependency heuristic on cleaned text: the word claim, a
space and a digit, case-insensitively. -/
def hasClaimNumRef : List Char → Bool
  | [] => false
  | l@(_ :: t) =>
    (isPrefixCI "claim ".toList l &&
      (match l.drop 6 with
       | d :: _ => d.isDigit
       | [] => false)) || hasClaimNumRef t

/-- Test for an explicit claim-ref opening tag in the raw body. -/
def hasClaimRefTag : List Char → Bool
  | [] => false
  | l@(_ :: t) =>
    (isPrefixCI "<claim-ref".toList l && (l.drop 10).contains '>') || hasClaimRefTag t

/-- One extracted claim. -/
structure PatClaim where
  number : Nat
  type : String
  text : String
deriving DecidableEq

/-- The primary extraction path of `extractClaimsFromXml`: one claim per
regex match, numbered by the parsed claim id with the running match count as
fallback when the parsed id is zero. -/
def primaryClaims (xml : List Char) : List PatClaim :=
  (findClaimMatches xml).enum.map (fun p =>
    let ctext := cleanText p.2.2
    let parsed := natOfDigits p.2.1
    { number := if parsed = 0 then p.1 + 1 else parsed
      type :=
        if hasClaimNumRef ctext || hasClaimRefTag p.2.2 then "dependent" else "independent"
      text := String.mk ctext })

/-- Try to match an opening claim tag at the head of the input, returning
the remainder after the tag (the split separator of the fallback path). -/
def matchClaimOpenAt (l : List Char) : Option (List Char) :=
  if isPrefixCI "<claim".toList l then
    let rest := l.drop 6
    let tag := rest.takeWhile (· ≠ '>')
    if tag.length < rest.length then some (rest.drop (tag.length + 1)) else none
  else none

/-- Worker for `splitOnClaimTag`. -/
def splitClaimTagGo : Nat → List Char → List Char → List (List Char)
  | 0, cur, l => [cur.reverse ++ l]
  | _ + 1, cur, [] => [cur.reverse]
  | fuel + 1, cur, l@(c :: t) =>
    match matchClaimOpenAt l with
    | some after => cur.reverse :: splitClaimTagGo fuel [] after
    | none => splitClaimTagGo fuel (c :: cur) t

/-- Split a claims block on opening claim tags, mirroring
`claimsBlock.split(openingClaimTagRegex)`. -/
def splitOnClaimTag (l : List Char) : List (List Char) :=
  splitClaimTagGo (l.length + 1) [] l

/-- The fallback extraction path of `extractClaimsFromXml`: locate a claims
block, split it on opening claim tags, drop blank segments, and keep each
segment whose cleaned text is longer than ten characters. -/
def fallbackClaims (xml : List Char) : List PatClaim :=
  match findTagBlockCI "<claims".toList "</claims>".toList xml with
  | none => []
  | some block =>
    (((splitOnClaimTag block).filter (fun s => !(trimWs s).isEmpty)).enum).filterMap
      (fun p =>
        let text := cleanText p.2
        if text.length > 10 then
          some { number := p.1 + 1
                 type := if hasClaimNumRef text then "dependent" else "independent"
                 text := String.mk text }
        else none)

/-- Model of `extractClaimsFromXml`: the primary path, falling back to the
claims-block split when the primary path finds nothing. -/
def extractClaimsFromXml (xml : List Char) : List PatClaim :=
  let prim := primaryClaims xml
  if prim.isEmpty then fallbackClaims xml else prim

/-! ## Schema-tolerant record extraction (src/lib/uspto-search.ts, lines 40-143)

`deepGet` probes an ordered list of dotted field paths and takes the first
hit that is a non-blank string or a number; `extractPatentFromResult`
assembles a patent record from a raw search-result object. -/

/-- Split a dotted path into its parts. -/
def splitPath (p : String) : List String := (splitOnChar '.' p.toList).map String.mk

/-- Walk one dotted path through a JSON value; `none` models both a nullish
intermediate value and a missing field. -/
def getPath (v : JVal) : List String → Option JVal
  | [] => some v
  | p :: rest =>
    match jlookup v p with
    | some v2 => getPath v2 rest
    | none => none

/-- One probe of `deepGet`: accept a string field with non-blank trim
(returning the trimmed value) or a numeric field (returning its decimal
string); every other shape is rejected. -/
def deepGetOne (v : JVal) (path : String) : Option String :=
  match getPath v (splitPath path) with
  | some (.str s) =>
    let t := trimWs s.toList
    if t.isEmpty then none else some (String.mk t)
  | some (.num n) => some (toString n)
  | _ => none

/-- Model of `deepGet`: first accepted probe wins, empty string otherwise. -/
def deepGet (v : JVal) : List String → String
  | [] => ""
  | p :: rest =>
    match deepGetOne v p with
    | some s => s
    | none => deepGet v rest

/-- JavaScript `a || b` where `a` is a possibly-absent JSON value. -/
def jsOrJ (a : Option JVal) (b : JVal) : JVal :=
  match a with
  | some v => if jTruthy v then v else b
  | none => b

mutual

/-- JavaScript string coercion of a JSON value when it leaks into a string
context: strings pass through, numbers and booleans print, null prints as
the word null, arrays join their coerced elements with commas, and plain
objects print as the object tag. -/
def jShow : JVal → String
  | .str s => s
  | .num n => toString n
  | .bool b => if b then "true" else "false"
  | .null => "null"
  | .arr xs => jShowJoin xs
  | .obj _ => "[object Object]"

/-- The array-to-string coercion: the elements joined by commas, a null
element rendering as the empty string inside the join. -/
def jShowJoin : List JVal → String
  | [] => ""
  | [.null] => ""
  | [x] => jShow x
  | .null :: y :: rest => "," ++ jShowJoin (y :: rest)
  | x :: y :: rest => jShow x ++ "," ++ jShowJoin (y :: rest)

end

/-- The metadata object: `result.applicationMetaData ||
result.applicationDataBag || result`. -/
def metadataOf (r : JVal) : JVal :=
  jsOrJ (jlookup r "applicationMetaData") (jsOrJ (jlookup r "applicationDataBag") r)

/-- First truthy field among `keys`, as a string; empty string otherwise. -/
def firstTruthyStr (v : JVal) : List String → String
  | [] => ""
  | k :: rest =>
    match jlookup v k with
    | some x => if jTruthy x then jShow x else firstTruthyStr v rest
    | none => firstTruthyStr v rest

/-- Names collected from an applicant or inventor bag.  The source maps
over the bag behind optional chaining and falls back to the empty list: an
absent or null bag short-circuits to undefined and the or-default yields the
empty list; an array maps each element to its first truthy name field and
drops falsy entries; any other value throws a TypeError, because optional
chaining guards only null and undefined while map is undefined on
non-arrays.  The thrown TypeError is modelled as `none`. -/
def bagNames (md : JVal) (bagKey : String) (fieldKeys : List String) :
    Option (List String) :=
  match jlookup md bagKey with
  | some (.arr xs) =>
    some ((xs.map (fun x => firstTruthyStr x fieldKeys)).filter (fun s => s ≠ ""))
  | some .null => some []
  | none => some []
  | some _ => none

/-- A normalized patent record (interface USPTOPatent of the source). -/
structure USPTOPatent where
  applicationNumberText : String
  patentNumber : Option String
  publicationNumber : Option String
  patentTitle : Option String
  filingDate : Option String
  grantDate : Option String
  applicants : List String
  inventors : List String
  abstract : Option String
deriving DecidableEq

/-- The empty-string-to-undefined coercion applied to `deepGet` results. -/
def strOrNone (s : String) : Option String := if s = "" then none else some s

/-- The candidate path list for the application number. -/
def appNumPaths : List String :=
  ["applicationNumberText", "applicationMetaData.applicationNumberText",
   "patentApplicationNumber", "applicationNumber",
   "applicationMetaData.applicationNumber",
   "applicationMetaData.patentApplicationNumber", "appNum",
   "applicationDataBag.applicationNumberText",
   "applicationDataBag.applicationNumber", "patentFileWrapperIdentifier",
   "applicationIdentifier"]

/-- The candidate path list for the grant number. -/
def patentNumPaths : List String :=
  ["patentNumber", "applicationMetaData.patentNumber", "patentGrantIdentifier",
   "applicationDataBag.patentNumber", "grantDocumentIdentifier"]

/-- The candidate path list for the publication number. -/
def pubNumPaths : List String :=
  ["publicationNumber", "applicationMetaData.publicationNumber",
   "applicationDataBag.publicationNumber", "pgpubDocumentIdentifier",
   "publicationDocumentIdentifier"]

/-- The candidate path list for the title. -/
def titlePaths : List String :=
  ["inventionTitle", "applicationMetaData.inventionTitle", "patentTitle",
   "applicationMetaData.patentTitle", "applicationDataBag.inventionTitle",
   "titleOfInvention"]

/-- The candidate path list for the filing date. -/
def filingDatePaths : List String :=
  ["filingDate", "applicationMetaData.filingDate",
   "applicationDataBag.filingDate", "applicationFilingDate"]

/-- The candidate path list for the grant date. -/
def grantDatePaths : List String :=
  ["grantDate", "applicationMetaData.grantDate",
   "applicationDataBag.grantDate", "patentGrantDate"]

/-- The candidate path list for the abstract. -/
def abstractPaths : List String :=
  ["abstract", "applicationMetaData.inventionAbstract", "inventionAbstract",
   "applicationDataBag.abstract"]

/-- Outcome of one call of `extractPatentFromResult`: the source returns
null when no application number is found at any candidate path (that check
runs before the bags are touched), throws a TypeError when an applicant or
inventor bag is a non-null non-array, and otherwise returns the record. -/
inductive ExtractOutcome where
  | typeError
  | nullResult
  | patent (p : USPTOPatent)
deriving DecidableEq

/-- Model of `extractPatentFromResult`. -/
def extractPatentFromResult (result : JVal) : ExtractOutcome :=
  let appNum := deepGet result appNumPaths
  if appNum = "" then .nullResult
  else
    let md := metadataOf result
    match bagNames md "applicantBag" ["applicantNameText", "name", "organizationName"],
        bagNames md "inventorBag" ["inventorNameText", "name"] with
    | some apps, some invs =>
      .patent
        { applicationNumberText := appNum
          patentNumber := strOrNone (deepGet result patentNumPaths)
          publicationNumber := strOrNone (deepGet result pubNumPaths)
          patentTitle := strOrNone (deepGet result titlePaths)
          filingDate := strOrNone (deepGet result filingDatePaths)
          grantDate := strOrNone (deepGet result grantDatePaths)
          applicants := apps
          inventors := invs
          abstract := strOrNone (deepGet result abstractPaths) }
    | _, _ => .typeError

/-! ## searchUSPTOPatents (src/lib/uspto-search.ts, lines 241-374)

Per company name the code issues an applicant-name-filtered query; when that
yields zero rows it falls back to a quoted-phrase query whose results are
post-filtered by `nameMatchesApplicant`.  Results are de-duplicated by
application number across all names through a seen-set.  The network is
mocked per name by the outcome of each of the two queries. -/

/-- Model of `nameMatchesApplicant`: the queried names matched against the
lower-cased concatenation of applicant and inventor names, either as a whole
phrase or word by word (words of more than two characters). -/
def nameMatchesApplicant (patent : USPTOPatent) (names : List String) : Bool :=
  let applicantStr := lcList (String.intercalate " " patent.applicants).toList
  let inventorStr := lcList (String.intercalate " " patent.inventors).toList
  let combined := applicantStr ++ (' ' :: inventorStr)
  names.any (fun n =>
    let lower := lcList n.toList
    let words := (wordsOf lower).filter (fun w => w.length > 2)
    containsSub combined lower || words.all (fun w => containsSub combined w))

/-- Outcome of one mocked fetch: a thrown network error, a non-ok HTTP
response, or an ok response carrying a value. -/
inductive FetchOutcome (α : Type) where
  | throws
  | notOk
  | ok (val : α)

/-- The two mocked responses for one company name: the applicant-filtered
query and the quoted-phrase query (the latter consulted only when the former
yields zero rows). -/
structure NameSearchEnv where
  resp1 : FetchOutcome (List JVal)
  resp2 : FetchOutcome (List JVal)

/-- The result-accumulation loop of `searchUSPTOPatents` over one response's
result array.  The state is the seen application numbers and the accumulated
patents.  The seen-set test precedes the quoted-phrase post-filter, exactly
as in the source.  An extraction TypeError propagates to the per-name catch,
which abandons the rest of this response's results while keeping what was
already accumulated; the source's pre-loop debug extraction of the first
result has the same effect as the loop aborting at that result, so it needs
no separate model. -/
def processResults (quoted : Bool) (names : List String) :
    List JVal → List String × List USPTOPatent → List String × List USPTOPatent
  | [], st => st
  | r :: rest, (seen, acc) =>
    match extractPatentFromResult r with
    | .typeError => (seen, acc)
    | .nullResult => processResults quoted names rest (seen, acc)
    | .patent p =>
      if seen.contains p.applicationNumberText then
        processResults quoted names rest (seen, acc)
      else if quoted && !nameMatchesApplicant p names then
        processResults quoted names rest (seen, acc)
      else
        processResults quoted names rest (p.applicationNumberText :: seen, acc ++ [p])

/-- Processing of one company name: strategy 1 (no post-filter) when it
returns rows; otherwise strategy 2 with the post-filter; exceptions and
non-ok fallback responses skip the name. -/
def searchOneName (names : List String) (env : NameSearchEnv)
    (st : List String × List USPTOPatent) : List String × List USPTOPatent :=
  match env.resp1 with
  | .throws => st
  | .ok l =>
    if l.isEmpty then
      match env.resp2 with
      | .throws => st
      | .notOk => st
      | .ok l2 => processResults true names l2 st
    else processResults false names l st
  | .notOk =>
    match env.resp2 with
    | .throws => st
    | .notOk => st
    | .ok l2 => processResults true names l2 st

/-- Model of `searchUSPTOPatents` over mocked per-name environments. -/
def searchUSPTOPatents (names : List String) (envs : List NameSearchEnv) :
    List USPTOPatent :=
  ((names.zip envs).foldl (fun st p => searchOneName names p.2 st) ([], [])).2

/-- The constant API base URL of the source. -/
def apiBase : String := "https://api.uspto.gov/api/v1"

/-- A file entry of a files-search response; absent fields are the empty
string, matching JavaScript falsiness under the or-chains of the source. -/
structure XmlFile where
  url : String
  fileUrl : String
  path : String
  filePath : String
  fileName : String

/-- The detail-lookup fields used by `tryDirectXmlLookup`, after the
source's coalescing of the metadata and top-level locations. -/
structure UsptoDetail where
  filingDate : String
  grantDate : String
  patentNumber : String
  publicationNumber : String

/-- The mocked network for `fetchPatentXml`. -/
structure XmlEnv where
  searchByApp : String → FetchOutcome (List XmlFile)
  searchByPatent : String → FetchOutcome (List XmlFile)
  fetchXml : String → FetchOutcome String
  detail : FetchOutcome UsptoDetail

/-- The result record of `fetchPatentXml`. -/
structure PatentXmlResult where
  xmlContent : String
  xmlUrl : String
  product : String
  abstract : String
deriving DecidableEq

/-- The product tag stored in the result for each bulk product identifier. -/
def productName (product : String) : String :=
  if product = "PTGRXML-SPLT" then "PTGRXML" else "APPXML"

/-- Model of `tryFetchXml`: fetch a URL and accept the body exactly when it
is non-empty, at least 100 characters long and contains an opening angle
bracket; network errors and non-ok statuses yield `none`. -/
def tryFetchXml (env : XmlEnv) (url : String) : Option (String × String × String) :=
  match env.fetchXml url with
  | .throws => none
  | .notOk => none
  | .ok xml =>
    if xml = "" || xml.length < 100 || !(xml.toList.contains '<') then none
    else some (xml, url, String.mk (extractAbstractFromXml xml.toList))

/-- URL resolution of the main files loop: the entry's url, else its
fileUrl, else a constructed product-files URL from its path, filePath or
fileName. -/
def resolveUrlMain (product : String) (f : XmlFile) : String :=
  jsOr f.url (jsOr f.fileUrl
    (apiBase ++ "/datasets/products/files/" ++ product ++ "/" ++
      jsOr f.path (jsOr f.filePath f.fileName)))

/-- URL resolution of the patent-number fallback branch, which omits the
fileName alternative. -/
def resolveUrlAlt (product : String) (f : XmlFile) : String :=
  jsOr f.url (jsOr f.fileUrl
    (apiBase ++ "/datasets/products/files/" ++ product ++ "/" ++
      jsOr f.path f.filePath))

/-- First success of an option-valued function over a list. -/
def firstSome {α β : Type} (f : α → Option β) : List α → Option β
  | [] => none
  | a :: rest =>
    match f a with
    | some b => some b
    | none => firstSome f rest

/-- Package an accepted fetch into the result record. -/
def mkXmlResult (product : String) (t : String × String × String) : PatentXmlResult :=
  ⟨t.1, t.2.1, productName product, t.2.2⟩

/-- The inner loop over the first three files of a search response. -/
def tryFilesMain (env : XmlEnv) (product : String) (files : List XmlFile) :
    Option PatentXmlResult :=
  firstSome (fun f => (tryFetchXml env (resolveUrlMain product f)).map (mkXmlResult product))
    (files.take 3)

/-- One iteration of the product loop of `fetchPatentXml`: search the
product by application number; when that request fails at the HTTP level and
a patent number is known and the product is the granted one, search by
patent number and try only the first file; exceptions are swallowed. -/
def fetchForProduct (env : XmlEnv) (patentNumber : String) (product : String) :
    Option PatentXmlResult :=
  match env.searchByApp product with
  | .throws => none
  | .notOk =>
    if patentNumber ≠ "" && product = "PTGRXML-SPLT" then
      match env.searchByPatent product with
      | .throws => none
      | .notOk => none
      | .ok files =>
        match files with
        | [] => none
        | f :: _ => (tryFetchXml env (resolveUrlAlt product f)).map (mkXmlResult product)
    else none
  | .ok files => if files.isEmpty then none else tryFilesMain env product files

/-- The direct grant-XML URL constructed from date components. -/
def directGrantUrl (appNum pn grantDate : String) : String :=
  let year := String.mk (grantDate.toList.take 4)
  let dateStr := String.mk (((grantDate.toList.filter (· ≠ '-')).drop 2).take 6)
  apiBase ++ "/datasets/products/files/PTGRXML-SPLT/" ++ year ++ "/ipg" ++ dateStr ++
    "/" ++ appNum ++ "_" ++ digitsOnly pn ++ ".xml"

/-- The direct application-XML URL constructed from date components. -/
def directAppUrl (appNum pubNum filingDate : String) : String :=
  let year := String.mk (filingDate.toList.take 4)
  let dateStr := String.mk (((filingDate.toList.filter (· ≠ '-')).drop 2).take 6)
  apiBase ++ "/datasets/products/files/APPXML-SPLT/" ++ year ++ "/ipa" ++ dateStr ++
    "/" ++ appNum ++ "_" ++ digitsOnly pubNum ++ ".xml"

/-- The repeated application-number search inside `tryDirectXmlLookup`. -/
def retrySearchProduct (env : XmlEnv) (product : String) : Option PatentXmlResult :=
  match env.searchByApp product with
  | .ok files =>
    firstSome (fun f => (tryFetchXml env (resolveUrlMain product f)).map (mkXmlResult product))
      (files.take 3)
  | _ => none

/-- Model of `tryDirectXmlLookup`: detail lookup, the two repeated
application-number searches, then the two constructed direct URLs. -/
def tryDirectXmlLookup (env : XmlEnv) (appNum patentNumber publicationNumber : String) :
    Option PatentXmlResult :=
  match env.detail with
  | .throws => none
  | .notOk => none
  | .ok d =>
    match retrySearchProduct env "PTGRXML-SPLT" with
    | some r => some r
    | none =>
      match retrySearchProduct env "APPXML-SPLT" with
      | some r => some r
      | none =>
        let pn := jsOr patentNumber d.patentNumber
        let pubNum := jsOr publicationNumber d.publicationNumber
        let grantTry :=
          if pn ≠ "" && d.grantDate ≠ "" then
            (tryFetchXml env (directGrantUrl appNum pn d.grantDate)).map
              (mkXmlResult "PTGRXML-SPLT")
          else none
        match grantTry with
        | some r => some r
        | none =>
          if pubNum ≠ "" && d.filingDate ≠ "" then
            (tryFetchXml env (directAppUrl appNum pubNum d.filingDate)).map
              (mkXmlResult "APPXML-SPLT")
          else none

/-- The for-loop of `fetchPatentXml` over the two bulk products. -/
def fetchProductsLoop (env : XmlEnv) (patentNumber : String) :
    List String → Option PatentXmlResult
  | [] => none
  | p :: rest =>
    match fetchForProduct env patentNumber p with
    | some r => some r
    | none => fetchProductsLoop env patentNumber rest

/-- Model of `fetchPatentXml`. -/
def fetchPatentXml (env : XmlEnv) (applicationNumber patentNumber publicationNumber : String) :
    Option PatentXmlResult :=
  let appNum := digitsOnly applicationNumber
  match fetchProductsLoop env patentNumber ["PTGRXML-SPLT", "APPXML-SPLT"] with
  | some r => some r
  | none => tryDirectXmlLookup env appNum patentNumber publicationNumber

/-- Modelled from the spec: the direct-URL strategy as the specification's
fourth step, constructing bulk-file URLs from date components only. -/
def specDirectLookup (env : XmlEnv) (appNum patentNumber publicationNumber : String) :
    Option PatentXmlResult :=
  match env.detail with
  | .ok d =>
    let pn := jsOr patentNumber d.patentNumber
    let pubNum := jsOr publicationNumber d.publicationNumber
    let grantTry :=
      if pn ≠ "" && d.grantDate ≠ "" then
        (tryFetchXml env (directGrantUrl appNum pn d.grantDate)).map
          (mkXmlResult "PTGRXML-SPLT")
      else none
    match grantTry with
    | some r => some r
    | none =>
      if pubNum ≠ "" && d.filingDate ≠ "" then
        (tryFetchXml env (directAppUrl appNum pubNum d.filingDate)).map
          (mkXmlResult "APPXML-SPLT")
      else none
  | _ => none

/-- Modelled from the spec: claim C3 and spec section 4.2 state the strategy
order as (1) granted-patent bulk product by application number, (2)
published-application bulk product by application number, (3) files-search
by patent number when a patent number is known, (4) direct bulk-URL
construction from date components.  This follows that order over the same
mocked network, for comparison with `fetchPatentXml`. -/
def fetchPatentXmlSpecOrder (env : XmlEnv)
    (applicationNumber patentNumber publicationNumber : String) :
    Option PatentXmlResult :=
  let appNum := digitsOnly applicationNumber
  let byApp := fun (product : String) =>
    match env.searchByApp product with
    | .ok files => if files.isEmpty then none else tryFilesMain env product files
    | _ => none
  match byApp "PTGRXML-SPLT" with
  | some r => some r
  | none =>
    match byApp "APPXML-SPLT" with
    | some r => some r
    | none =>
      let byPatent :=
        if patentNumber ≠ "" then
          match env.searchByPatent "PTGRXML-SPLT" with
          | .ok files =>
            match files with
            | [] => none
            | f :: _ =>
              (tryFetchXml env (resolveUrlAlt "PTGRXML-SPLT" f)).map
                (mkXmlResult "PTGRXML-SPLT")
          | _ => none
        else none
      match byPatent with
      | some r => some r
      | none => specDirectLookup env appNum patentNumber publicationNumber

/-- A 100-character XML body containing an opening angle bracket. -/
def xml100 : String := String.mk ('<' :: List.replicate 99 'x')

/-- A 151-character grant XML body. -/
def xmlG : String := String.mk ('<' :: List.replicate 150 'g')

/-- A 151-character application XML body. -/
def xmlA : String := String.mk ('<' :: List.replicate 150 'a')

/-- Mocked network where the granted-product search returns one file whose
body is exactly 100 characters long. -/
def envLen100 : XmlEnv where
  searchByApp := fun p => if p = "PTGRXML-SPLT" then .ok [⟨"u", "", "", "", ""⟩] else .notOk
  searchByPatent := fun _ => .notOk
  fetchXml := fun u => if u = "u" then .ok xml100 else .notOk
  detail := .notOk

/-- Mocked network where the granted-product application-number search fails
at the HTTP level, the patent-number search yields a valid grant XML, and
the published-application search would also yield a valid XML. -/
def envOrder : XmlEnv where
  searchByApp := fun p => if p = "PTGRXML-SPLT" then .notOk else .ok [⟨"ua", "", "", "", ""⟩]
  searchByPatent := fun p => if p = "PTGRXML-SPLT" then .ok [⟨"ug", "", "", "", ""⟩] else .notOk
  fetchXml := fun u => if u = "ug" then .ok xmlG else if u = "ua" then .ok xmlA else .notOk
  detail := .notOk

/-! ## Analysis scoring and persistence
(src/lib/competitor-research.ts, lines 576-626)

After the infringement-analysis LLM call the pipeline parses the response
(substituting a fixed default object when parsing throws), computes the
maximum and the rounded mean of the per-product infringement scores, and
upserts the analyses row keyed by competitor id.  JavaScript numeric
behaviour is modelled exactly: the spread of an empty score list into
`Math.max` yields negative infinity, and a missing or non-numeric score
propagates as NaN. -/

/-- A JavaScript numeric result that may be negative infinity or NaN. -/
inductive ScoreVal where
  | negInf
  | nan
  | int (n : Int)
deriving DecidableEq

/-- The per-product score list: the mapped `infringementProbability` values
when `products` is an array, the one-element default list when `products` is
absent or null, and `none` (a thrown TypeError) when `products` is a
non-null non-array or the analysis itself is null. -/
def productScores (analysis : JVal) : Option (List (Option Int)) :=
  match analysis with
  | .null => none
  | _ =>
    match jlookup analysis "products" with
    | some (.arr xs) =>
      some (xs.map (fun p =>
        match jlookup p "infringementProbability" with
        | some (.num n) => some n
        | _ => none))
    | some .null => some [some 0]
    | none => some [some 0]
    | some _ => none

/-- Maximum of a non-empty integer list. -/
def intMaxOf : Int → List Int → Int
  | a, [] => a
  | a, x :: rest => intMaxOf (max a x) rest

/-- JavaScript `Math.max` over the spread score list: negative infinity on
an empty list, NaN when any score is missing or non-numeric. -/
def jsMax (l : List (Option Int)) : ScoreVal :=
  match l with
  | [] => .negInf
  | _ =>
    if l.any (fun x => x.isNone) then .nan
    else
      match l.filterMap id with
      | [] => .negInf
      | x :: rest => .int (intMaxOf x rest)

/-- JavaScript `Math.round` of an exact integer ratio: the floor of the
ratio plus one half. -/
def jsRound (sum : Int) (len : Nat) : Int := Int.fdiv (2 * sum + len) (2 * len)

/-- The mean-score expression of the source: zero on an empty score list,
the rounded mean otherwise, NaN when any score is missing. -/
def jsAvg (l : List (Option Int)) : ScoreVal :=
  if l.isEmpty then .int 0
  else if l.any (fun x => x.isNone) then .nan
  else .int (jsRound ((l.filterMap id).foldl (· + ·) 0) l.length)

/-- Hexadecimal digit test, case-insensitive. -/
def isHexDigit (c : Char) : Bool := c.isDigit || ('a' ≤ c.toLower && c.toLower ≤ 'f')

/-- The uuid shape test of the source's uuidRegex. -/
def isUuid (s : String) : Bool :=
  let parts := splitOnChar '-' s.toList
  (parts.map List.length) == [8, 4, 4, 4, 12] && parts.all (fun p => p.all isHexDigit)

/-- The conservative default analysis substituted when parsing the LLM
output throws. -/
def defaultAnalysis : JVal :=
  .obj [("settlementProbability", .num 50),
        ("settlementFactors",
          .arr [.obj [("factor", .str "Analysis Error"), ("impact", .str "neutral"),
                      ("detail", .str "Could not complete analysis")]]),
        ("companyRisk", .str "Medium"),
        ("products", .arr [])]

/-- The analyses row upserted in step 7, with its conflict key. -/
structure AnalysesUpsert where
  competitor_id : String
  patent_id : Option String
  status : String
  results : JVal
  infringement_score : ScoreVal
  onConflict : String

/-- Steps 6 and 7 of `researchAndAnalyzeCompetitor` after the analysis LLM
call: substitute the default on parse failure, compute the max and mean
scores, and build the upsert row keyed by competitor id.  The second
component is the mean score returned as overallInfringement.  `none` models
the TypeError crash on a malformed products field. -/
def analysisPhase (competitorId : String) (sourcePatentId : Option String)
    (parsed : Option JVal) : Option (AnalysesUpsert × ScoreVal) :=
  let analysis := parsed.getD defaultAnalysis
  match productScores analysis with
  | none => none
  | some scores =>
    let validPatentId :=
      match sourcePatentId with
      | some s => if isUuid s then some s else none
      | none => none
    some ({ competitor_id := competitorId
            patent_id := validPatentId
            status := "complete"
            results := analysis
            infringement_score := jsMax scores
            onConflict := "competitor_id" }, jsAvg scores)

/-! ## The pipeline's database writes
(src/lib/competitor-research.ts, lines 292-358, 361-499, 589-611)

`researchAndAnalyzeCompetitor` writes to competitor_documents in exactly two
places, both plain inserts: the product rows of step 3 with status verified
or ai_researched, and the patent rows of step 4 with status xml_available or
metadata_only.  It never updates an existing document row.  The write trace
is modelled as a function of the per-item outcomes, and a small relational
semantics records that replaying the trace never changes an existing row. -/

/-- Outcome data for one researched product: whether a document of the same
name already exists (the insert is skipped), and whether its URL verified
live. -/
structure ProductInput where
  name : String
  alreadyExists : Bool
  isLive : Bool

/-- Outcome data for one discovered competitor patent. -/
structure CompetitorPatentInput where
  title : String
  appNum : String
  alreadyExists : Bool
  hasXmlUrl : Bool

/-- One database write of the pipeline. -/
inductive DbWrite where
  | insertCompetitor (name : String)
  | updateCompetitorRow (id : String)
  | insertDoc (competitorId name docType status : String)
  | upsertAnalysis (competitorId : String)
deriving DecidableEq

/-- Step 3: one insert per product not already present, status verified when
the URL verified live and ai_researched otherwise. -/
def productWrites (cid : String) (ps : List ProductInput) : List DbWrite :=
  ps.filterMap (fun p =>
    if p.alreadyExists then none
    else some (.insertDoc cid p.name "product_service"
      (if p.isLive then "verified" else "ai_researched")))

/-- Step 4: one insert per patent not already present, capped at the first
fifteen, status xml_available when an XML URL was found and metadata_only
otherwise. -/
def patentWrites (cid : String) (pats : List CompetitorPatentInput) : List DbWrite :=
  (pats.take 15).filterMap (fun p =>
    if p.alreadyExists then none
    else some (.insertDoc cid (if p.title = "" then "Patent " ++ p.appNum else p.title)
      "patent" (if p.hasXmlUrl then "xml_available" else "metadata_only")))

/-- The full write trace of one pipeline run. -/
def pipelineWrites (cid : String) (isNew : Bool) (name : String)
    (ps : List ProductInput) (pats : List CompetitorPatentInput) : List DbWrite :=
  (if isNew then [DbWrite.insertCompetitor name] else [DbWrite.updateCompetitorRow cid]) ++
    productWrites cid ps ++ patentWrites cid pats ++ [DbWrite.upsertAnalysis cid]

/-- The status carried by a competitor_documents write, if any. -/
def docWriteStatus : DbWrite → Option String
  | .insertDoc _ _ _ st => some st
  | _ => none

/-- A competitor_documents table: row ids with their status column. -/
abbrev DocDb := List (Nat × String)

/-- A fresh row id. -/
def freshDocId (db : DocDb) : Nat := db.foldl (fun m p => max m (p.1 + 1)) 0

/-- Status of a row by id. -/
def lookupDoc (db : DocDb) (id : Nat) : Option String :=
  (db.find? (fun p => p.1 == id)).map (·.2)

/-- Apply one write: a document insert appends a fresh row; no pipeline
write updates an existing document row. -/
def applyWrite (db : DocDb) : DbWrite → DocDb
  | .insertDoc _ _ _ st => db ++ [(freshDocId db, st)]
  | _ => db

/-- Replay a write trace. -/
def applyWrites (db : DocDb) (ws : List DbWrite) : DocDb := ws.foldl applyWrite db

/-! ## Concrete inputs used by the claim theorems -/

/-- The mocked response sequence of the spec's retry scenario: two 429s with
retry-after 5 seconds, then a success. -/
def scenarioResps : Nat → ApiResponse := fun i =>
  if i < 2 then ⟨false, 429, some 5, [], "rl"⟩
  else ⟨true, 200, none, [("text", "final text")], ""⟩

/-- A model text containing two top-level JSON objects after prose. -/
def twoObjText : String := "Top: \x7b\"a\":1\x7d tail \x7b\"b\":2\x7d"

/-- An XML document exercising the claims fallback path with a segment of
more than ten cleaned characters. -/
def claimsFallbackXml : String :=
  "<claims><claim>1. A method of doing something useful.</claim></claims>"

/-- A parsed analysis carrying out-of-range probabilities. -/
def analysis150 : JVal :=
  .obj [("settlementProbability", .num 150),
        ("settlementFactors", .arr []),
        ("companyRisk", .str "High"),
        ("products", .arr [.obj [("name", .str "P"), ("infringementProbability", .num 150)]])]

/-- A search result for application 111 with applicant Acme Inc. -/
def rAcme111 : JVal :=
  .obj [("applicationNumberText", .str "111"),
        ("applicantBag", .arr [.obj [("applicantNameText", .str "Acme Inc")]])]

/-- A search result for application 222 with an applicant unrelated to the
queried names. -/
def rGlobex222 : JVal :=
  .obj [("applicationNumberText", .str "222"),
        ("applicantBag", .arr [.obj [("applicantNameText", .str "Globex LLC")]])]

/-- A name environment whose applicant-filter query yields zero rows, so the
quoted-phrase fallback with post-filter runs. -/
def envQuotedFallback : NameSearchEnv := ⟨.ok [], .ok [rAcme111, rGlobex222]⟩

/-- A mocked XML network in which every URL fetch returns a non-ok
response, so every strategy is exhausted. -/
def envAllFail : XmlEnv where
  searchByApp := fun _ => .ok [⟨"u", "", "", "", ""⟩]
  searchByPatent := fun _ => .ok [⟨"u2", "", "", "", ""⟩]
  fetchXml := fun _ => .notOk
  detail := .ok ⟨"2020-01-01", "2021-01-01", "123", "456"⟩

/-- A name environment falls back to the quoted-phrase strategy when its
applicant-filter query yields zero rows or fails. -/
def quotedOnly (e : NameSearchEnv) : Prop :=
  ∀ l, e.resp1 = .ok l → l = []

/-- The acceptance test of `tryFetchXml` as a predicate on results. -/
def xmlAccepted (r : PatentXmlResult) : Prop :=
  100 ≤ r.xmlContent.length ∧ r.xmlContent.toList.contains '<' = true

/-! # Claim theorems -/

/-! ## Shared helper lemmas -/

/-- A successful find in a prefix survives appending. -/
theorem find?_append_some {α : Type} (p : α → Bool) :
    ∀ (l1 l2 : List α) (a : α), l1.find? p = some a → (l1 ++ l2).find? p = some a := by
  intro l1 l2 a h
  induction l1 with
  | nil => simp [List.find?] at h
  | cons x t ih =>
    by_cases hx : p x
    · simp_all [List.find?_cons_of_pos]
    · simp_all [List.find?_cons_of_neg]

/-- Every list member appears in the enumeration with some index. -/
theorem exists_enum_pair {α : Type} {a : α} :
    ∀ {l : List α}, a ∈ l → ∃ i, (i, a) ∈ l.enum := by
  have key : ∀ (l : List α) (n : Nat), a ∈ l → ∃ i, (i, a) ∈ l.enumFrom n := by
    intro l
    induction l with
    | nil => intro n h; cases h
    | cons b t ih =>
      intro n h
      rcases List.mem_cons.mp h with rfl | ht
      · exact ⟨n, List.mem_cons_self _ _⟩
      · obtain ⟨i, hi⟩ := ih (n + 1) ht
        exact ⟨i, List.mem_cons_of_mem _ hi⟩
  intro l h
  exact key l 0 h

/-- The retry loop of `callClaude` makes at most `fuel` fetch attempts. -/
theorem callClaudeLoop_attempts_le (resps : Nat → ApiResponse) :
    ∀ fuel attempt, (callClaudeLoop resps fuel attempt).2.1 ≤ fuel := by
  intro fuel
  induction fuel with
  | zero => intro attempt; simp [callClaudeLoop]
  | succ f ih =>
    intro attempt
    simp only [callClaudeLoop]
    split
    · simp
    · split
      · have := ih (attempt + 1)
        simp only []
        omega
      · simp

/-! ## C2: the callClaude retry policy -/

/-- C2: callClaude makes at most five fetch attempts (one initial plus up to
four retries); after a 429 it waits the server-supplied retry-after seconds
when present and otherwise the escalating schedule of 30s, 60s, 90s, 120s
capped at 120s; any other non-success status raises immediately with the
response body attached; and the mocked scenario of two 429s with retry-after
5 followed by a success returns the final text after three attempts and ten
seconds of total wait. -/
theorem C2_callClaude_retry_policy :
    (∀ resps : Nat → ApiResponse, (callClaude resps).2.1 ≤ 5) ∧
    (∀ (a s : Nat), waitMsFor a (some s) = s * 1000) ∧
    (waitMsFor 0 none = 30000 ∧ waitMsFor 1 none = 60000 ∧
      waitMsFor 2 none = 90000 ∧ waitMsFor 3 none = 120000 ∧
      ∀ a : Nat, waitMsFor a none ≤ 120000) ∧
    (∀ resps : Nat → ApiResponse, (resps 0).ok = false → (resps 0).status ≠ 429 →
      callClaude resps =
        (.apiError ("Claude API error " ++ toString (resps 0).status ++ ": " ++ (resps 0).body),
          1, 0)) ∧
    (callClaude scenarioResps = (.success "final text", 3, 10000) ∧ 10 * 1000 ≤ 10000) := by
  refine ⟨?_, ?_, ⟨rfl, rfl, rfl, rfl, ?_⟩, ?_, rfl, by norm_num⟩
  · intro resps
    exact callClaudeLoop_attempts_le resps (maxRetries + 1) 0
  · intro a s; rfl
  · intro a; exact min_le_right _ _
  · intro resps h1 h2
    simp [callClaude, callClaudeLoop, h1, h2]

/-- C2 witness: the immediate-error branch applied at a concrete mocked 500
response. -/
theorem C2_callClaude_retry_policy_witness :
    callClaude (fun _ => ⟨false, 500, none, [], "boom"⟩) =
      (.apiError "Claude API error 500: boom", 1, 0) :=
  C2_callClaude_retry_policy.2.2.2.1 (fun _ => ⟨false, 500, none, [], "boom"⟩) rfl (by decide)

/-! ## C7: JSON extraction from model text -/

/-- C7 counterexample: on a text holding two top-level objects after prose,
the greedy stage-2 regex spans from the first opening brace to the last
closing brace, so `parseJsonResponse` throws, while the first top-level
span described by the claim parses to the object a maps-to 1. -/
theorem C7_counterexample :
    parseJsonResponse twoObjText.toList = none ∧
    specFirstTopLevelSpan twoObjText.toList = some "\x7b\"a\":1\x7d".toList ∧
    jsonParse (trimWs ((specFirstTopLevelSpan twoObjText.toList).getD [])) =
      some (.obj [("a", .num 1)]) :=
  ⟨rfl, rfl, rfl⟩

/-- C7 amended: parseJsonResponse tries, in order, the content of a fenced
code block labeled json, then the span of the raw text from its first
opening brace to its last closing brace (not the first top-level span), then
the trimmed raw text; the fenced example and the bare example preceded by
prose both parse to the object a maps-to 1. -/
theorem C7_two_stage_extraction :
    parseJsonResponse "```json\n\x7b\"a\":1\x7d\n```".toList = some (.obj [("a", .num 1)]) ∧
    parseJsonResponse "Here is the result: \x7b\"a\":1\x7d".toList = some (.obj [("a", .num 1)]) ∧
    (∀ text s, fencedJsonExtract text = some s →
      parseJsonResponse text = jsonParse (trimWs s)) ∧
    (∀ text s, fencedJsonExtract text = none → braceSpanExtract text = some s →
      parseJsonResponse text = jsonParse (trimWs s)) ∧
    (∀ text, fencedJsonExtract text = none → braceSpanExtract text = none →
      parseJsonResponse text = jsonParse (trimWs text)) := by
  refine ⟨rfl, rfl, ?_, ?_, ?_⟩
  · intro text s h
    simp [parseJsonResponse, h]
  · intro text s h1 h2
    simp [parseJsonResponse, h1, h2]
  · intro text h1 h2
    simp [parseJsonResponse, h1, h2]

/-- C7 witness: the three stage equations applied at concrete texts. -/
theorem C7_two_stage_extraction_witness :
    parseJsonResponse "```json\n\x7b\"a\":1\x7d\n```".toList =
      jsonParse (trimWs "\x7b\"a\":1\x7d\n".toList) ∧
    parseJsonResponse "Here is the result: \x7b\"a\":1\x7d".toList =
      jsonParse (trimWs "\x7b\"a\":1\x7d".toList) ∧
    parseJsonResponse "no braces here".toList = jsonParse (trimWs "no braces here".toList) :=
  ⟨C7_two_stage_extraction.2.2.1 _ _ rfl,
   C7_two_stage_extraction.2.2.2.1 _ _ rfl rfl,
   C7_two_stage_extraction.2.2.2.2 _ rfl rfl⟩

/-! ## C8: parse failure of the analysis is replaced by the default -/

/-- C8: when parsing the infringement-analysis output fails, the pipeline
substitutes the conservative default analysis (settlement probability 50,
company risk Medium, one neutral Analysis Error factor, empty products) and
still produces the analyses upsert keyed by the competitor id. -/
theorem C8_parse_failure_conservative_default :
    ∀ (cid : String) (spid : Option String),
      ∃ row avg, analysisPhase cid spid none = some (row, avg) ∧
        row.competitor_id = cid ∧ row.onConflict = "competitor_id" ∧
        row.status = "complete" ∧ row.results = defaultAnalysis ∧
        jlookup defaultAnalysis "settlementProbability" = some (.num 50) ∧
        jlookup defaultAnalysis "companyRisk" = some (.str "Medium") ∧
        jlookup defaultAnalysis "products" = some (.arr []) ∧
        jlookup defaultAnalysis "settlementFactors" =
          some (.arr [.obj [("factor", .str "Analysis Error"), ("impact", .str "neutral"),
                            ("detail", .str "Could not complete analysis")]]) := by
  intro cid spid
  exact ⟨_, _, rfl, rfl, rfl, rfl, rfl, rfl, rfl, rfl, rfl⟩

/-! ## C10: the empty-products corner of the score computation -/

/-- C10: when the parsed analysis has a products field that is an empty
array, the mean score is 0 but the maximum is the JavaScript maximum of an
empty spread, negative infinity, and that value lands in the upsert's
infringement score; the one-element default score list applies only when
products is absent or null. -/
theorem C10_empty_products_negative_infinity :
    (∀ (cid : String) (spid : Option String) (fs : List (String × JVal)),
      jlookup (.obj fs) "products" = some (.arr []) →
      ∃ row avg, analysisPhase cid spid (some (.obj fs)) = some (row, avg) ∧
        row.infringement_score = .negInf ∧ avg = .int 0) ∧
    (∀ (cid : String) (spid : Option String) (a : JVal), a ≠ .null →
      jlookup a "products" = none →
      ∃ row avg, analysisPhase cid spid (some a) = some (row, avg) ∧
        row.infringement_score = .int 0 ∧ avg = .int 0) ∧
    (∀ (cid : String) (spid : Option String) (a : JVal),
      jlookup a "products" = some .null →
      ∃ row avg, analysisPhase cid spid (some a) = some (row, avg) ∧
        row.infringement_score = .int 0 ∧ avg = .int 0) := by
  refine ⟨?_, ?_, ?_⟩
  · intro cid spid fs h
    have hs : productScores (JVal.obj fs) = some [] := by simp [productScores, h]
    refine ⟨{ competitor_id := cid,
              patent_id := match spid with
                | some s => if isUuid s then some s else none
                | none => none,
              status := "complete", results := .obj fs,
              infringement_score := jsMax [], onConflict := "competitor_id" },
            jsAvg [], by simp [analysisPhase, hs], rfl, rfl⟩
  · intro cid spid a hnull h
    have hs : productScores a = some [some 0] := by
      cases a with
      | null => exact absurd rfl hnull
      | obj fs => simp [productScores, h]
      | bool b => rfl
      | num n => rfl
      | str s => rfl
      | arr xs => rfl
    refine ⟨{ competitor_id := cid,
              patent_id := match spid with
                | some s => if isUuid s then some s else none
                | none => none,
              status := "complete", results := a,
              infringement_score := jsMax [some 0], onConflict := "competitor_id" },
            jsAvg [some 0], by simp [analysisPhase, hs], rfl, rfl⟩
  · intro cid spid a h
    have hs : productScores a = some [some 0] := by
      cases a with
      | null => simp [jlookup] at h
      | obj fs => simp [productScores, h]
      | bool b => simp [jlookup] at h
      | num n => simp [jlookup] at h
      | str s => simp [jlookup] at h
      | arr xs => simp [jlookup] at h
    refine ⟨{ competitor_id := cid,
              patent_id := match spid with
                | some s => if isUuid s then some s else none
                | none => none,
              status := "complete", results := a,
              infringement_score := jsMax [some 0], onConflict := "competitor_id" },
            jsAvg [some 0], by simp [analysisPhase, hs], rfl, rfl⟩

/-- C10 witness: the three branches applied at concrete analyses. -/
theorem C10_empty_products_negative_infinity_witness :
    (∃ row avg,
      analysisPhase "c" none (some (.obj [("products", .arr [])])) = some (row, avg) ∧
        row.infringement_score = .negInf ∧ avg = .int 0) ∧
    (∃ row avg, analysisPhase "c" none (some (.obj [])) = some (row, avg) ∧
        row.infringement_score = .int 0 ∧ avg = .int 0) ∧
    (∃ row avg, analysisPhase "c" none (some (.obj [("products", .null)])) = some (row, avg) ∧
        row.infringement_score = .int 0 ∧ avg = .int 0) :=
  ⟨C10_empty_products_negative_infinity.1 "c" none _ rfl,
   C10_empty_products_negative_infinity.2.1 "c" none _ (fun h => JVal.noConfusion h) rfl,
   C10_empty_products_negative_infinity.2.2 "c" none _ rfl⟩

/-! ## C1: out-of-range LLM probabilities are persisted unvalidated -/

/-- C1: evaluating the persistence step at an analysis whose settlement and
infringement probabilities are 150 shows both values passed through
unchanged into the stored results object and the computed maximum and mean
summary scores, with no clamping or rejection anywhere. -/
theorem C1_out_of_range_passed_through :
    analysisPhase "c1" none (some analysis150) =
      some ({ competitor_id := "c1", patent_id := none, status := "complete",
              results := analysis150, infringement_score := .int 150,
              onConflict := "competitor_id" }, .int 150) ∧
    jlookup analysis150 "settlementProbability" = some (.num 150) :=
  ⟨rfl, rfl⟩

/-! ## C9: document statuses never revert -/

/-- Applying one pipeline write preserves every existing document row. -/
theorem lookupDoc_applyWrite (db : DocDb) (w : DbWrite) (id : Nat) (s : String)
    (h : lookupDoc db id = some s) : lookupDoc (applyWrite db w) id = some s := by
  cases w with
  | insertDoc cid n dt st =>
    simp only [applyWrite, lookupDoc] at h ⊢
    obtain ⟨pair, hf, hs⟩ := Option.map_eq_some'.mp h
    rw [find?_append_some _ _ _ _ hf]
    simp [hs]
  | insertCompetitor n => exact h
  | updateCompetitorRow i => exact h
  | upsertAnalysis c => exact h

/-- Replaying a whole write trace preserves every existing document row. -/
theorem lookupDoc_applyWrites (id : Nat) (s : String) :
    ∀ (ws : List DbWrite) (db : DocDb), lookupDoc db id = some s →
      lookupDoc (applyWrites db ws) id = some s := by
  intro ws
  induction ws with
  | nil => intro db h; exact h
  | cons w t ih =>
    intro db h
    exact ih (applyWrite db w) (lookupDoc_applyWrite db w id s h)

/-- Every document status written by the pipeline trace is one of the four
insert statuses of the source, never pending_extraction. -/
theorem pipelineWrites_status (cid : String) (isNew : Bool) (name : String)
    (ps : List ProductInput) (pats : List CompetitorPatentInput) (w : DbWrite) (st : String)
    (hw : w ∈ pipelineWrites cid isNew name ps pats) (hst : docWriteStatus w = some st) :
    (st = "verified" ∨ st = "ai_researched" ∨ st = "xml_available" ∨ st = "metadata_only") ∧
      st ≠ "pending_extraction" := by
  simp only [pipelineWrites, List.mem_append] at hw
  rcases hw with ((hcreate | hprod) | hpat) | hlast
  · by_cases hn : isNew <;> simp [hn] at hcreate <;> subst hcreate <;>
      simp [docWriteStatus] at hst
  · simp only [productWrites, List.mem_filterMap] at hprod
    obtain ⟨p, _, he⟩ := hprod
    by_cases hae : p.alreadyExists
    · simp [hae] at he
    · simp [hae] at he
      subst he
      simp only [docWriteStatus, Option.some_inj] at hst
      subst hst
      by_cases hl : p.isLive <;> simp [hl]
  · simp only [patentWrites, List.mem_filterMap] at hpat
    obtain ⟨p, _, he⟩ := hpat
    by_cases hae : p.alreadyExists
    · simp [hae] at he
    · simp [hae] at he
      subst he
      simp only [docWriteStatus, Option.some_inj] at hst
      subst hst
      by_cases hx : p.hasXmlUrl <;> simp [hx]
  · simp only [List.mem_singleton] at hlast
    subst hlast
    simp [docWriteStatus] at hst

/-- C9: every competitor_documents write of the pipeline is an insert
carrying status verified, ai_researched, xml_available or metadata_only and
never pending_extraction; replaying the trace leaves every existing document
row unchanged; hence a row that has reached xml_available or verified is
never set to pending_extraction. -/
theorem C9_document_status_never_reverts :
    (∀ cid isNew name ps pats w st, w ∈ pipelineWrites cid isNew name ps pats →
      docWriteStatus w = some st →
      (st = "verified" ∨ st = "ai_researched" ∨ st = "xml_available" ∨ st = "metadata_only") ∧
        st ≠ "pending_extraction") ∧
    (∀ cid isNew name ps pats (db : DocDb) id s, lookupDoc db id = some s →
      lookupDoc (applyWrites db (pipelineWrites cid isNew name ps pats)) id = some s) ∧
    (∀ cid isNew name ps pats (db : DocDb) id s, lookupDoc db id = some s →
      (s = "xml_available" ∨ s = "verified") →
      lookupDoc (applyWrites db (pipelineWrites cid isNew name ps pats)) id ≠
        some "pending_extraction") := by
  refine ⟨fun cid isNew name ps pats w st hw hst =>
      pipelineWrites_status cid isNew name ps pats w st hw hst,
    fun cid isNew name ps pats db id s h =>
      lookupDoc_applyWrites id s (pipelineWrites cid isNew name ps pats) db h, ?_⟩
  intro cid isNew name ps pats db id s h hs
  rw [lookupDoc_applyWrites id s (pipelineWrites cid isNew name ps pats) db h]
  rcases hs with rfl | rfl <;> simp

/-- C9 witness: the status fact at a concrete patent insert of a concrete
trace, and the non-reversion fact for a concrete row already at
xml_available. -/
theorem C9_document_status_never_reverts_witness :
    ((("xml_available" : String) = "verified" ∨ ("xml_available" : String) = "ai_researched" ∨
        ("xml_available" : String) = "xml_available" ∨
        ("xml_available" : String) = "metadata_only") ∧
      ("xml_available" : String) ≠ "pending_extraction") ∧
    lookupDoc (applyWrites [(0, "xml_available")]
        (pipelineWrites "c" true "x" [⟨"p", false, true⟩] [⟨"t", "1", false, true⟩])) 0 ≠
      some "pending_extraction" :=
  ⟨C9_document_status_never_reverts.1 "c" true "x" [⟨"p", false, true⟩]
      [⟨"t", "1", false, true⟩] (.insertDoc "c" "t" "patent" "xml_available") "xml_available"
      (by decide) rfl,
   C9_document_status_never_reverts.2.2 "c" true "x" [⟨"p", false, true⟩]
      [⟨"t", "1", false, true⟩] [(0, "xml_available")] 0 "xml_available" rfl (Or.inl rfl)⟩

/-! ## C4: the claims-extraction fallback path -/

/-- C4 counterexample: an XML document with a non-empty claims block, zero
claim-id elements, and only one character of content yields zero claims,
because the fallback drops segments of at most ten cleaned characters. -/
theorem C4_counterexample :
    primaryClaims "<claims>x</claims>".toList = [] ∧
    findTagBlockCI "<claims".toList "</claims>".toList "<claims>x</claims>".toList =
      some "x".toList ∧
    extractClaimsFromXml "<claims>x</claims>".toList = [] :=
  ⟨rfl, rfl, rfl⟩

/-- C4 amended: when the primary path finds nothing and a claims block is
present, the fallback returns at least one claim provided some non-blank
segment of the block cleans to more than ten characters; segments of at most
ten cleaned characters are dropped. -/
theorem C4_claims_fallback :
    ∀ (xml block : List Char), primaryClaims xml = [] →
      findTagBlockCI "<claims".toList "</claims>".toList xml = some block →
      (∃ s ∈ (splitOnClaimTag block).filter (fun s => !(trimWs s).isEmpty),
        10 < (cleanText s).length) →
      extractClaimsFromXml xml ≠ [] := by
  intro xml block h1 h2 hex
  obtain ⟨s, hs, hlen⟩ := hex
  have hfb : extractClaimsFromXml xml = fallbackClaims xml := by
    simp [extractClaimsFromXml, h1]
  rw [hfb]
  simp only [fallbackClaims, h2]
  obtain ⟨i, hi⟩ := exists_enum_pair hs
  apply List.ne_nil_of_mem
    (a := { number := i + 1,
            type := if hasClaimNumRef (cleanText s) then "dependent" else "independent",
            text := String.mk (cleanText s) })
  apply List.mem_filterMap.mpr
  exact ⟨(i, s), hi, by simp [hlen]⟩

/-- C4 witness: the fallback produces a claim on a concrete document whose
claims block has no claim-id elements and one segment of thirty-eight
cleaned characters. -/
theorem C4_claims_fallback_witness :
    extractClaimsFromXml claimsFallbackXml.toList ≠ [] :=
  C4_claims_fallback claimsFallbackXml.toList
    "<claim>1. A method of doing something useful.</claim>".toList rfl rfl
    ⟨"1. A method of doing something useful.</claim>".toList, by decide, by decide⟩

/-! ## C3: fetchPatentXml strategies, acceptance and exhaustion -/

/-- A successful `tryFetchXml` passed the acceptance test. -/
theorem tryFetchXml_accept (env : XmlEnv) (url : String) (t : String × String × String)
    (h : tryFetchXml env url = some t) :
    100 ≤ t.1.length ∧ t.1.toList.contains '<' = true := by
  cases hf : env.fetchXml url with
  | throws => simp [tryFetchXml, hf] at h
  | notOk => simp [tryFetchXml, hf] at h
  | ok xml =>
    simp only [tryFetchXml, hf] at h
    by_cases hlen : xml.length < 100
    · simp [hlen] at h
    · by_cases hcon : xml.toList.contains '<'
      · have hmem : '<' ∈ xml.data := by simpa using hcon
        have hne : xml ≠ "" := by
          intro he
          rw [he] at hlen
          simp at hlen
        rw [if_neg (by simp [hne, hlen, hmem])] at h
        rw [Option.some_inj] at h
        subst h
        exact ⟨show 100 ≤ xml.length by omega, hcon⟩
      · have hnm : '<' ∉ xml.data := by simpa using hcon
        rw [if_pos (by simp [hnm])] at h
        cases h

/-- A mapped `tryFetchXml` success yields an accepted result whose content
is the fetched body. -/
theorem mapMk_accepted (env : XmlEnv) (url product : String) (r : PatentXmlResult)
    (h : (tryFetchXml env url).map (mkXmlResult product) = some r) : xmlAccepted r := by
  cases ht : tryFetchXml env url with
  | none => rw [ht] at h; cases h
  | some t =>
    rw [ht] at h
    simp only [Option.map_some', Option.some_inj] at h
    subst h
    exact tryFetchXml_accept env url t ht

/-- A `firstSome` success comes from some list element. -/
theorem firstSome_some {α β : Type} (f : α → Option β) :
    ∀ (l : List α) (b : β), firstSome f l = some b → ∃ a ∈ l, f a = some b := by
  intro l
  induction l with
  | nil => intro b h; cases h
  | cons a t ih =>
    intro b h
    simp only [firstSome] at h
    cases hf : f a with
    | some b2 =>
      rw [hf] at h
      exact ⟨a, List.mem_cons_self _ _, by rw [hf]; exact h⟩
    | none =>
      rw [hf] at h
      obtain ⟨a2, ha2, hfa2⟩ := ih b h
      exact ⟨a2, List.mem_cons_of_mem _ ha2, hfa2⟩

/-- `firstSome` fails when the function fails on every element. -/
theorem firstSome_none {α β : Type} (f : α → Option β) :
    ∀ (l : List α), (∀ a ∈ l, f a = none) → firstSome f l = none := by
  intro l
  induction l with
  | nil => intro _; rfl
  | cons a t ih =>
    intro h
    simp only [firstSome, h a (List.mem_cons_self _ _)]
    exact ih (fun b hb => h b (List.mem_cons_of_mem _ hb))

/-- The inner files loop only returns accepted results. -/
theorem tryFilesMain_accepted (env : XmlEnv) (product : String) (files : List XmlFile)
    (r : PatentXmlResult) (h : tryFilesMain env product files = some r) : xmlAccepted r := by
  obtain ⟨f, _, hf⟩ := firstSome_some _ _ _ h
  exact mapMk_accepted env (resolveUrlMain product f) product r hf

/-- One product iteration only returns accepted results. -/
theorem fetchForProduct_accepted (env : XmlEnv) (pn product : String) (r : PatentXmlResult)
    (h : fetchForProduct env pn product = some r) : xmlAccepted r := by
  cases hs : env.searchByApp product with
  | throws => simp [fetchForProduct, hs] at h
  | notOk =>
    simp only [fetchForProduct, hs] at h
    split at h
    · cases hp : env.searchByPatent product with
      | throws => simp [hp] at h
      | notOk => simp [hp] at h
      | ok files =>
        simp only [hp] at h
        cases files with
        | nil => simp at h
        | cons f fs => exact mapMk_accepted env (resolveUrlAlt product f) product r h
    · simp at h
  | ok files =>
    simp only [fetchForProduct, hs] at h
    split at h
    · simp at h
    · exact tryFilesMain_accepted env product files r h

/-- The repeated search inside the direct lookup only returns accepted
results. -/
theorem retrySearchProduct_accepted (env : XmlEnv) (product : String) (r : PatentXmlResult)
    (h : retrySearchProduct env product = some r) : xmlAccepted r := by
  cases hs : env.searchByApp product with
  | throws => simp [retrySearchProduct, hs] at h
  | notOk => simp [retrySearchProduct, hs] at h
  | ok files =>
    simp only [retrySearchProduct, hs] at h
    obtain ⟨f, _, hf⟩ := firstSome_some _ _ _ h
    exact mapMk_accepted env (resolveUrlMain product f) product r hf

/-- The direct lookup only returns accepted results. -/
theorem tryDirectXmlLookup_accepted (env : XmlEnv) (a pn pub : String) (r : PatentXmlResult)
    (h : tryDirectXmlLookup env a pn pub = some r) : xmlAccepted r := by
  cases hd : env.detail with
  | throws => simp [tryDirectXmlLookup, hd] at h
  | notOk => simp [tryDirectXmlLookup, hd] at h
  | ok d =>
    simp only [tryDirectXmlLookup, hd] at h
    cases h1 : retrySearchProduct env "PTGRXML-SPLT" with
    | some r1 =>
      simp only [h1, Option.some_inj] at h
      subst h
      exact retrySearchProduct_accepted env _ r1 h1
    | none =>
      simp only [h1] at h
      cases h2 : retrySearchProduct env "APPXML-SPLT" with
      | some r2 =>
        simp only [h2, Option.some_inj] at h
        subst h
        exact retrySearchProduct_accepted env _ r2 h2
      | none =>
        simp only [h2] at h
        split at h
        · next r1 hg =>
          rw [Option.some_inj] at h
          subst h
          split at hg
          · exact mapMk_accepted env _ _ r1 hg
          · cases hg
        · split at h
          · exact mapMk_accepted env _ _ r h
          · simp at h

/-- The product loop only returns accepted results. -/
theorem fetchProductsLoop_accepted (env : XmlEnv) (pn : String) :
    ∀ (products : List String) (r : PatentXmlResult),
      fetchProductsLoop env pn products = some r → xmlAccepted r := by
  intro products
  induction products with
  | nil => intro r h; cases h
  | cons p rest ih =>
    intro r h
    simp only [fetchProductsLoop] at h
    cases hp : fetchForProduct env pn p with
    | some r1 =>
      simp only [hp, Option.some_inj] at h
      subst h
      exact fetchForProduct_accepted env pn p r1 hp
    | none =>
      simp only [hp] at h
      exact ih r h

/-- The whole call only returns accepted results. -/
theorem fetchPatentXml_accepted (env : XmlEnv) (a pn pub : String) (r : PatentXmlResult)
    (h : fetchPatentXml env a pn pub = some r) : xmlAccepted r := by
  simp only [fetchPatentXml] at h
  cases hl : fetchProductsLoop env pn ["PTGRXML-SPLT", "APPXML-SPLT"] with
  | some r1 =>
    simp only [hl, Option.some_inj] at h
    subst h
    exact fetchProductsLoop_accepted env pn _ r1 hl
  | none =>
    simp only [hl] at h
    exact tryDirectXmlLookup_accepted env _ pn pub r h

/-- When every fetch fails acceptance, the files loop yields nothing. -/
theorem tryFilesMain_none (env : XmlEnv) (product : String) (files : List XmlFile)
    (hn : ∀ url, tryFetchXml env url = none) : tryFilesMain env product files = none := by
  unfold tryFilesMain
  exact firstSome_none _ _ (fun f _ => by rw [hn]; rfl)

/-- When every fetch fails acceptance, each product step yields nothing. -/
theorem fetchForProduct_none (env : XmlEnv) (pn product : String)
    (hn : ∀ url, tryFetchXml env url = none) : fetchForProduct env pn product = none := by
  cases hs : env.searchByApp product with
  | throws => simp [fetchForProduct, hs]
  | notOk =>
    simp only [fetchForProduct, hs]
    split
    · cases hp : env.searchByPatent product with
      | throws => rfl
      | notOk => rfl
      | ok files =>
        cases files with
        | nil => rfl
        | cons f fs => simp [hn]
    · rfl
  | ok files =>
    simp only [fetchForProduct, hs]
    split
    · rfl
    · exact tryFilesMain_none env product files hn

/-- When every fetch fails acceptance, the repeated search yields nothing. -/
theorem retrySearchProduct_none (env : XmlEnv) (product : String)
    (hn : ∀ url, tryFetchXml env url = none) : retrySearchProduct env product = none := by
  cases hs : env.searchByApp product with
  | throws => simp [retrySearchProduct, hs]
  | notOk => simp [retrySearchProduct, hs]
  | ok files =>
    simp only [retrySearchProduct, hs]
    exact firstSome_none _ _ (fun f _ => by rw [hn]; rfl)

/-- When every fetch fails acceptance, the direct lookup yields nothing. -/
theorem tryDirectXmlLookup_none (env : XmlEnv) (a pn pub : String)
    (hn : ∀ url, tryFetchXml env url = none) : tryDirectXmlLookup env a pn pub = none := by
  cases hd : env.detail with
  | throws => simp [tryDirectXmlLookup, hd]
  | notOk => simp [tryDirectXmlLookup, hd]
  | ok d =>
    simp [tryDirectXmlLookup, hd, retrySearchProduct_none env "PTGRXML-SPLT" hn,
      retrySearchProduct_none env "APPXML-SPLT" hn, hn]

/-- When every fetch fails acceptance, the whole call returns null. -/
theorem fetchPatentXml_none (env : XmlEnv) (a pn pub : String)
    (hn : ∀ url, tryFetchXml env url = none) : fetchPatentXml env a pn pub = none := by
  simp [fetchPatentXml, fetchProductsLoop,
    fetchForProduct_none env pn "PTGRXML-SPLT" hn,
    fetchForProduct_none env pn "APPXML-SPLT" hn,
    tryDirectXmlLookup_none env (digitsOnly a) pn pub hn]

/-- C3 counterexample: the acceptance test admits a body of exactly 100
characters (the claim requires strictly more than 100), and on a network
where the granted-product application-number search fails at the HTTP level
the code resolves the patent-number search before the published-application
product, while the claimed strategy order resolves the published-application
product first, giving a different result. -/
theorem C3_counterexample :
    fetchPatentXml envLen100 "123" "" "" = some ⟨xml100, "u", "PTGRXML", ""⟩ ∧
    xml100.length = 100 ∧
    fetchPatentXml envOrder "123" "9999" "" ≠ fetchPatentXmlSpecOrder envOrder "123" "9999" "" ∧
    (fetchPatentXml envOrder "123" "9999" "").map (·.product) = some "PTGRXML" ∧
    (fetchPatentXmlSpecOrder envOrder "123" "9999" "").map (·.product) = some "APPXML" :=
  ⟨by decide, by decide, by decide, by decide, by decide⟩

/-- C3 amended: every non-null result passed the acceptance test (length at
least 100 and containing an opening angle bracket); when every fetch is
rejected the call returns null; the granted-product step is tried first,
then the published-application step, then the direct lookup; and the
files-search by patent number belongs to the granted-product step, running
when that product's application-number search fails at the HTTP level with a
patent number known, and so resolves before the published-application
product is tried. -/
theorem C3_fetch_strategy_order :
    (∀ env a pn pub r, fetchPatentXml env a pn pub = some r → xmlAccepted r) ∧
    (∀ env a pn pub, (∀ url, tryFetchXml env url = none) →
      fetchPatentXml env a pn pub = none) ∧
    (∀ env a pn pub r, fetchForProduct env pn "PTGRXML-SPLT" = some r →
      fetchPatentXml env a pn pub = some r) ∧
    (∀ env a pn pub r, fetchForProduct env pn "PTGRXML-SPLT" = none →
      fetchForProduct env pn "APPXML-SPLT" = some r →
      fetchPatentXml env a pn pub = some r) ∧
    (∀ env a pn pub, fetchForProduct env pn "PTGRXML-SPLT" = none →
      fetchForProduct env pn "APPXML-SPLT" = none →
      fetchPatentXml env a pn pub = tryDirectXmlLookup env (digitsOnly a) pn pub) ∧
    (∀ env (a pn pub : String) (r : PatentXmlResult) (f : XmlFile) (fs : List XmlFile),
      env.searchByApp "PTGRXML-SPLT" = .notOk → pn ≠ "" →
      env.searchByPatent "PTGRXML-SPLT" = .ok (f :: fs) →
      (tryFetchXml env (resolveUrlAlt "PTGRXML-SPLT" f)).map (mkXmlResult "PTGRXML-SPLT") =
        some r →
      fetchPatentXml env a pn pub = some r) := by
  have grantFirst : ∀ env a pn pub r, fetchForProduct env pn "PTGRXML-SPLT" = some r →
      fetchPatentXml env a pn pub = some r := by
    intro env a pn pub r h
    simp [fetchPatentXml, fetchProductsLoop, h]
  refine ⟨fetchPatentXml_accepted, fetchPatentXml_none, grantFirst, ?_, ?_, ?_⟩
  · intro env a pn pub r h1 h2
    simp [fetchPatentXml, fetchProductsLoop, h1, h2]
  · intro env a pn pub h1 h2
    simp [fetchPatentXml, fetchProductsLoop, h1, h2]
  · intro env a pn pub r f fs h1 h2 h3 h4
    apply grantFirst
    simp only [fetchForProduct, h1]
    rw [if_pos (by simp [h2])]
    simp only [h3]
    exact h4

/-- C3 witness: the amended parts applied at the concrete mocked networks. -/
theorem C3_fetch_strategy_order_witness :
    xmlAccepted ⟨xml100, "u", "PTGRXML", ""⟩ ∧
    fetchPatentXml envAllFail "123" "9999" "456" = none ∧
    fetchPatentXml envOrder "123" "9999" "" = some ⟨xmlG, "ug", "PTGRXML", ""⟩ :=
  ⟨C3_fetch_strategy_order.1 envLen100 "123" "" "" _ (by decide),
   C3_fetch_strategy_order.2.1 envAllFail "123" "9999" "456" (fun _ => rfl),
   C3_fetch_strategy_order.2.2.2.2.2 envOrder "123" "9999" "" _ ⟨"ug", "", "", "", ""⟩ []
     rfl (by decide) rfl (by decide)⟩

/-! ## C5: de-duplication by application number -/

/-- Every patent added by the quoted-phrase result loop matches the queried
names. -/
theorem processResults_quoted_matches (names : List String) :
    ∀ (rs : List JVal) (seen : List String) (acc : List USPTOPatent),
      (∀ p ∈ acc, nameMatchesApplicant p names = true) →
      ∀ p ∈ (processResults true names rs (seen, acc)).2,
        nameMatchesApplicant p names = true := by
  intro rs
  induction rs with
  | nil =>
    intro seen acc h
    simpa [processResults] using h
  | cons r rest ih =>
    intro seen acc h
    cases hext : extractPatentFromResult r with
    | typeError =>
      have hp : processResults true names (r :: rest) (seen, acc) = (seen, acc) := by
        simp [processResults, hext]
      rw [hp]
      exact h
    | nullResult =>
      have hp : processResults true names (r :: rest) (seen, acc) =
          processResults true names rest (seen, acc) := by
        simp [processResults, hext]
      rw [hp]
      exact ih seen acc h
    | patent q =>
      by_cases hseen : q.applicationNumberText ∈ seen
      · have hp : processResults true names (r :: rest) (seen, acc) =
            processResults true names rest (seen, acc) := by
          simp [processResults, hext, hseen]
        rw [hp]
        exact ih seen acc h
      · by_cases hm : nameMatchesApplicant q names
        · have hp : processResults true names (r :: rest) (seen, acc) =
              processResults true names rest (q.applicationNumberText :: seen, acc ++ [q]) := by
            simp [processResults, hext, hseen, hm]
          rw [hp]
          apply ih
          intro p hp2
          rcases List.mem_append.mp hp2 with h1 | h2
          · exact h p h1
          · rw [List.mem_singleton.mp h2]
            exact hm
        · have hp : processResults true names (r :: rest) (seen, acc) =
              processResults true names rest (seen, acc) := by
            simp [processResults, hext, hseen, hm]
          rw [hp]
          exact ih seen acc h

/-- A name that falls back to the quoted-phrase strategy only adds matching
patents. -/
theorem searchOneName_quoted_matches (names : List String) (env : NameSearchEnv)
    (hq : quotedOnly env) (seen : List String) (acc : List USPTOPatent)
    (h : ∀ p ∈ acc, nameMatchesApplicant p names = true) :
    ∀ p ∈ (searchOneName names env (seen, acc)).2,
      nameMatchesApplicant p names = true := by
  cases h1 : env.resp1 with
  | throws => simpa [searchOneName, h1] using h
  | ok l =>
    have hl : l = [] := hq l h1
    subst hl
    cases h2 : env.resp2 with
    | throws => simpa [searchOneName, h1, h2] using h
    | notOk => simpa [searchOneName, h1, h2] using h
    | ok l2 =>
      have hs : searchOneName names env (seen, acc) =
          processResults true names l2 (seen, acc) := by
        simp [searchOneName, h1, h2]
      rw [hs]
      exact processResults_quoted_matches names l2 seen acc h
  | notOk =>
    cases h2 : env.resp2 with
    | throws => simpa [searchOneName, h1, h2] using h
    | notOk => simpa [searchOneName, h1, h2] using h
    | ok l2 =>
      have hs : searchOneName names env (seen, acc) =
          processResults true names l2 (seen, acc) := by
        simp [searchOneName, h1, h2]
      rw [hs]
      exact processResults_quoted_matches names l2 seen acc h

/-- The fold over all names preserves the all-matching property when every
name falls back to the quoted-phrase strategy. -/
theorem searchFold_quoted_matches (names : List String) :
    ∀ (pairs : List (String × NameSearchEnv)) (seen : List String) (acc : List USPTOPatent),
      (∀ pr ∈ pairs, quotedOnly pr.2) →
      (∀ p ∈ acc, nameMatchesApplicant p names = true) →
      ∀ p ∈ (pairs.foldl (fun st pr => searchOneName names pr.2 st) (seen, acc)).2,
        nameMatchesApplicant p names = true := by
  intro pairs
  induction pairs with
  | nil =>
    intro seen acc _ h
    simpa using h
  | cons pr rest ih =>
    intro seen acc hqs h
    have step : (pr :: rest).foldl (fun st q => searchOneName names q.2 st) (seen, acc) =
        rest.foldl (fun st q => searchOneName names q.2 st)
          (searchOneName names pr.2 (seen, acc)) := rfl
    rw [step]
    have h1 := searchOneName_quoted_matches names pr.2
      (hqs pr (List.mem_cons_self _ _)) seen acc h
    exact ih (searchOneName names pr.2 (seen, acc)).1 (searchOneName names pr.2 (seen, acc)).2
      (fun q hqmem => hqs q (List.mem_cons_of_mem _ hqmem)) h1

/-- C6: when the applicant-filtered query yields zero rows for every name,
every patent kept from the quoted-phrase fallback passes the post-filter
(some word of a queried name appears among its applicants and inventors);
and in the concrete fallback scenario the matching result 111 is kept while
the non-matching result 222 is filtered out of the returned list. -/
theorem C6_quoted_phrase_post_filter :
    (∀ names envs, (∀ e ∈ envs, quotedOnly e) →
      ∀ p ∈ searchUSPTOPatents names envs, nameMatchesApplicant p names = true) ∧
    ((searchUSPTOPatents ["Acme Inc"] [envQuotedFallback]).map (·.applicationNumberText) =
      ["111"]) ∧
    (∃ p, extractPatentFromResult rGlobex222 = .patent p ∧
      nameMatchesApplicant p ["Acme Inc"] = false) := by
  refine ⟨?_, by decide, ?_⟩
  · intro names envs hq p hp
    have hzip : ∀ pr ∈ names.zip envs, quotedOnly pr.2 := by
      intro pr hpr
      exact hq pr.2 (List.of_mem_zip hpr).2
    exact searchFold_quoted_matches names (names.zip envs) [] []
      hzip (by simp) p hp
  · exact ⟨⟨"222", none, none, none, none, none, ["Globex LLC"], [], none⟩,
      by decide, by decide⟩

/-- C6 witness: the universal post-filter fact applied at the concrete
fallback scenario and its kept result 111. -/
theorem C6_quoted_phrase_post_filter_witness :
    nameMatchesApplicant ⟨"111", none, none, none, none, none, ["Acme Inc"], [], none⟩
      ["Acme Inc"] = true :=
  C6_quoted_phrase_post_filter.1 ["Acme Inc"] [envQuotedFallback]
    (by
      intro e he
      rw [List.mem_singleton.mp he]
      intro l hl
      cases hl
      rfl)
    ⟨"111", none, none, none, none, none, ["Acme Inc"], [], none⟩
    (by decide)
